import Mathlib

/-
Verification development for the TWS-Widget gateway.

Shallow embedding of the two source modules:
  * option_chain_ibapi.py — tick aggregation (OptionChainApp callbacks), current-price
    resolution, expiration selection, strike-window selection and the chain reduction
    of get_option_chain_ibapi.
  * tws_bridge.py — fill-price determination, tick rounding and bracket (stop-loss /
    take-profit) child-order construction of place_order.

Python floats are modelled as exact rationals plus an explicit NaN constructor
(PyFloat); Python's `round` (banker's rounding, half to even) is modelled exactly on
rationals.  Dictionary fields that may be missing are modelled as Option values.
Python strings compare lexicographically by code point, which matches the order on
lists of characters, so YYYYMMDD expiration strings are compared via String.toList.
-/

/-- A Python float value as it is stored in the tick dictionaries: either NaN or an
exact numeric value (modelled as a rational). -/
inductive PyFloat where
  | nan : PyFloat
  | val (q : ℚ) : PyFloat
deriving DecidableEq

/-- Python truthiness of a float: `0.0` is falsy, every other float — including
NaN — is truthy. -/
def PyFloat.truthy : PyFloat → Bool
  | .nan => true
  | .val q => q != 0

/-- `math.isnan`. -/
def PyFloat.isnan : PyFloat → Bool
  | .nan => true
  | .val _ => false

/-- The Python comparison `v > 0`; every comparison with NaN is False. -/
def PyFloat.gtZero : PyFloat → Bool
  | .nan => false
  | .val q => decide (0 < q)

/-- The per-request-id tick dictionary built by the OptionChainApp callbacks
(`option_data[reqId]`).  A field that was never written is `none`. -/
structure TickBucket where
  bid : Option PyFloat
  ask : Option PyFloat
  last : Option PyFloat
  volume : Option ℤ
  iv : Option PyFloat
  delta : Option PyFloat
  theta : Option PyFloat
deriving DecidableEq

/-- The empty dictionary `{}`: no field received yet. -/
def emptyBucket : TickBucket :=
  ⟨none, none, none, none, none, none, none⟩

/-- `OptionChainApp.tickPrice`: tick types 1 (bid), 2 (ask) and 4 (last) are stored
unconditionally; every other tick type is ignored. -/
def tickPrice (b : TickBucket) (tickType : ℤ) (price : PyFloat) : TickBucket :=
  if tickType = 1 then { b with bid := some price }
  else if tickType = 2 then { b with ask := some price }
  else if tickType = 4 then { b with last := some price }
  else b

/-- `OptionChainApp.tickSize`: tick type 8 (volume) is stored unconditionally. -/
def tickSize (b : TickBucket) (tickType : ℤ) (size : ℤ) : TickBucket :=
  if tickType = 8 then { b with volume := some size } else b

/-- `OptionChainApp.tickGeneric`: tick type 24 (implied volatility) is stored
unconditionally. -/
def tickGeneric (b : TickBucket) (tickType : ℤ) (value : PyFloat) : TickBucket :=
  if tickType = 24 then { b with iv := some value } else b

/-- `OptionChainApp.tickOptionComputation`: implied volatility is stored only when
truthy and `> 0`; delta and theta only when truthy and not NaN.  (The unused
arguments optPrice, pvDividend, gamma, vega, undPrice of the callback are omitted;
the source never reads them.) -/
def tickOptionComputation (b : TickBucket) (impliedVol delta theta : PyFloat) :
    TickBucket :=
  let b1 := if impliedVol.truthy && impliedVol.gtZero
    then { b with iv := some impliedVol } else b
  let b2 := if delta.truthy && !delta.isnan
    then { b1 with delta := some delta } else b1
  if theta.truthy && !theta.isnan then { b2 with theta := some theta } else b2

/-- One incoming market-data callback for a fixed request id. -/
inductive TickEvent where
  | price (tickType : ℤ) (p : PyFloat)
  | size (tickType : ℤ) (s : ℤ)
  | generic (tickType : ℤ) (v : PyFloat)
  | optComp (impliedVol delta theta : PyFloat)

/-- Dispatch one callback into the bucket, as the EWrapper methods do. -/
def applyEvent (b : TickBucket) : TickEvent → TickBucket
  | .price t p => tickPrice b t p
  | .size t s => tickSize b t s
  | .generic t v => tickGeneric b t v
  | .optComp ivv d th => tickOptionComputation b ivv d th

/-- A whole callback sequence for one request id. -/
def runEvents (b : TickBucket) (evs : List TickEvent) : TickBucket :=
  evs.foldl applyEvent b

/-- The `safe_get` helper of get_option_chain_ibapi with default 0: a missing field
or a NaN value becomes 0, any other value is returned unchanged. -/
def safe_get (o : Option PyFloat) : ℚ :=
  match o with
  | none => 0
  | some .nan => 0
  | some (.val q) => q

/-- Python's `round` to an integer: nearest integer, ties to the even one. -/
def roundHalfEven (q : ℚ) : ℤ :=
  if q - ⌊q⌋ < 1/2 then ⌊q⌋
  else if 1/2 < q - ⌊q⌋ then ⌊q⌋ + 1
  else if ⌊q⌋ % 2 = 0 then ⌊q⌋ else ⌊q⌋ + 1

/-- Python's `round(x, 2)`. -/
def pyRound2 (q : ℚ) : ℚ := (roundHalfEven (q * 100) : ℚ) / 100

/-- Python's `round(x, 3)`. -/
def pyRound3 (q : ℚ) : ℚ := (roundHalfEven (q * 1000) : ℚ) / 1000

/-- The mid-price computation of the chain reduction:
`round((bid + ask) / 2, 2) if bid and ask else 0`, applied to
`safe_get(data, 'bid')` and `safe_get(data, 'ask')`.  The guard is Python
truthiness of the two safe_get results, i.e. both nonzero. -/
def midPrice (bid ask : Option PyFloat) : ℚ :=
  let b := safe_get bid
  let a := safe_get ask
  if b ≠ 0 ∧ a ≠ 0 then pyRound2 ((b + a) / 2) else 0

/-- The IV field of a row: `round(iv * 100, 2) if iv else 0` on the safe_get value. -/
def ivOut (d : TickBucket) : ℚ :=
  if safe_get d.iv ≠ 0 then pyRound2 (safe_get d.iv * 100) else 0

/-- One entry of the returned option chain (the expiry strings, identical on every
row, are omitted). -/
structure StrikeRow where
  strike : ℚ
  callMid : ℚ
  callIV : ℚ
  callDelta : ℚ
  callTheta : ℚ
  putMid : ℚ
  putIV : ℚ
  putDelta : ℚ
  putTheta : ℚ
deriving DecidableEq

/-- The row dictionary built for one strike from the call and put buckets. -/
def mkRow (strike : ℚ) (call_data put_data : TickBucket) : StrikeRow :=
  { strike := strike
    callMid := midPrice call_data.bid call_data.ask
    callIV := ivOut call_data
    callDelta := pyRound3 (safe_get call_data.delta)
    callTheta := pyRound3 (safe_get call_data.theta)
    putMid := midPrice put_data.bid put_data.ask
    putIV := ivOut put_data
    putDelta := pyRound3 (safe_get put_data.delta)
    putTheta := pyRound3 (safe_get put_data.theta) }

/-- The row-building loop: request ids are handed out pairwise (call, put) starting
from the given id, matching the loop over `selected_strikes` with `req_id += 2`.
`optionData` is the `option_data` map read through `.get(id, {})`. -/
def buildRows (optionData : ℕ → TickBucket) : List ℚ → ℕ → List StrikeRow
  | [], _ => []
  | strike :: rest, reqId =>
      mkRow strike (optionData reqId) (optionData (reqId + 1))
        :: buildRows optionData rest (reqId + 2)

/-- Python's `x or y` on two optional float values: if `x` is present and truthy it
wins, otherwise the result is `y`. -/
def pyOrFloat (x y : Option PyFloat) : Option PyFloat :=
  match x with
  | some v => if v.truthy then some v else y
  | none => y

/-- `option_data[1].get('last') or option_data[1].get('bid') or
option_data[1].get('ask')`. -/
def current_price_of (b : TickBucket) : Option PyFloat :=
  pyOrFloat b.last (pyOrFloat b.bid b.ask)

/-- The current-price resolution including the `if not current_price` guard: the
result is `none` exactly when get_option_chain_ibapi returns the no-price failure
(before any chain subscription is made). -/
def resolve_current_price (b : TickBucket) : Option PyFloat :=
  match current_price_of b with
  | some v => if v.truthy then some v else none
  | none => none

/-- A field of the stock bucket that Python's `or` chain skips: missing, or the
float 0.0. -/
def falsyField (o : Option PyFloat) : Prop :=
  o = none ∨ o = some (PyFloat.val 0)

instance (o : Option PyFloat) : Decidable (falsyField o) := by
  unfold falsyField
  infer_instance

/-- Python string comparison `a <= b`: lexicographic by code point, i.e. the order
on the underlying character lists. -/
def strLE (a b : String) : Prop := a.toList ≤ b.toList

/-- Python string comparison `a < b`. -/
def strLT (a b : String) : Prop := a.toList < b.toList

instance (a b : String) : Decidable (strLE a b) := by
  unfold strLE
  infer_instance

instance (a b : String) : Decidable (strLT a b) := by
  unfold strLT
  infer_instance

/-- The nearest-expiry scan of get_option_chain_ibapi: the first expiration with
`exp >= today`, with the `if not nearest_expiry` fallback to `expirations[0]`
(the guard also treats an empty string as absent, per Python truthiness). -/
def nearest_expiry (expirations : List String) (today : String) : Option String :=
  match expirations.find? (fun e => decide (strLE today e)) with
  | some e => if e = "" then expirations.head? else some e
  | none => expirations.head?

/-- The state of the pending-request set together with a counter of how many times
`data_ready.set()` has been invoked (the completion signal). -/
structure PendingState where
  pending : Finset ℕ
  fireCount : ℕ
deriving DecidableEq

/-- The shared body of `contractDetailsEnd` and
`securityDefinitionOptionParameterEnd`: remove the id if present; if the set
became empty, fire the signal. -/
def completeOne (s : PendingState) (reqId : ℕ) : PendingState :=
  if reqId ∈ s.pending then
    { pending := s.pending.erase reqId
      fireCount := if s.pending.erase reqId = ∅ then s.fireCount + 1 else s.fireCount }
  else s

/-- A sequence of end-callbacks played against the pending set. -/
def runCompletions (s : PendingState) (tr : List ℕ) : PendingState :=
  tr.foldl completeOne s

/-- One reported execution (`fill.execution.shares`, `fill.execution.price`). -/
structure Fill where
  shares : ℚ
  price : ℚ
deriving DecidableEq

/-- `total_quantity` accumulated over `trade.fills`. -/
def fills_total_qty (fills : List Fill) : ℚ :=
  (fills.map fun f => f.shares).sum

/-- `total_value` accumulated over `trade.fills`. -/
def fills_total_value (fills : List Fill) : ℚ :=
  (fills.map fun f => f.shares * f.price).sum

/-- Method 1 of place_order: the quantity-weighted average over the fills list,
computed only when the list is nonempty and `total_quantity > 0`; otherwise
`fill_price` stays None. -/
def fills_price (fills : List Fill) : Option ℚ :=
  if fills = [] then none
  else if 0 < fills_total_qty fills
    then some (fills_total_value fills / fills_total_qty fills)
  else none

/-- Methods 1 and 2 combined: `if fill_price is None or fill_price == 0:
fill_price = trade.orderStatus.avgFillPrice`. -/
def final_fill_price (fills : List Fill) (avgFillPrice : ℚ) : ℚ :=
  match fills_price fills with
  | some p => if p = 0 then avgFillPrice else p
  | none => avgFillPrice

/-- The validation step: `if fill_price is None or fill_price <= 0` return the
invalid-fill-price failure, else keep the price. -/
def validated_fill_price (fills : List Fill) (avgFillPrice : ℚ) : Option ℚ :=
  if final_fill_price fills avgFillPrice ≤ 0 then none
  else some (final_fill_price fills avgFillPrice)

/-- The round_to_tick helper of place_order: tick size 0.05 for a price under 3,
else 0.10; result `round(price / tick_size) * tick_size`. -/
def round_to_tick (price : ℚ) : ℚ :=
  if price < 3 then (roundHalfEven (price / (5/100)) : ℚ) * (5/100)
  else (roundHalfEven (price / (10/100)) : ℚ) * (10/100)

/-- A stop-loss / take-profit percentage argument as received by place_order.
`dashes` is the sentinel string, `emptyInput` the empty string, `noneInput` is
None; `malformed` stands for any other string `float()` rejects, `value q` for a
string parsing to the number `q`. -/
inductive PctInput where
  | dashes
  | emptyInput
  | noneInput
  | malformed
  | value (q : ℚ)
deriving DecidableEq

/-- `pct != '--' and pct != '' and pct is not None` (the has_stop_loss /
has_take_profit test). -/
def hasLegB : PctInput → Bool
  | .dashes => false
  | .emptyInput => false
  | .noneInput => false
  | .malformed => true
  | .value _ => true

/-- `float(pct)`: `some` the parsed number, `none` when a ValueError is raised. -/
def parse_pct : PctInput → Option ℚ
  | .value q => some q
  | _ => none

/-- A bracket child order as submitted by place_order: STP (stop) or LMT
(take-profit), its aux/limit price, and the OCA group it carries, if any. -/
structure ChildOrder where
  isStop : Bool
  price : ℚ
  ocaGroup : Option String
deriving DecidableEq

/-- The bracket block of place_order: build the optional stop-loss and take-profit
child orders from the parent fill price; a ValueError while parsing a percentage
drops that leg only.  The OCA group is attached to the stop leg when a take-profit
was requested and to the take-profit leg when a stop was requested.  The returned
list is the submission order (stop first, then take-profit). -/
def bracket_children (fill_price : ℚ) (stop_loss_pct take_profit_pct : PctInput)
    (oca_group : String) : List ChildOrder :=
  let has_stop_loss := hasLegB stop_loss_pct
  let has_take_profit := hasLegB take_profit_pct
  if has_stop_loss || has_take_profit then
    let sl_order : Option ChildOrder :=
      if has_stop_loss then
        match parse_pct stop_loss_pct with
        | some sl_pct =>
            some { isStop := true
                   price := round_to_tick (fill_price * (1 - sl_pct / 100))
                   ocaGroup := if has_take_profit then some oca_group else none }
        | none => none
      else none
    let tp_order : Option ChildOrder :=
      if has_take_profit then
        match parse_pct take_profit_pct with
        | some tp_pct =>
            some { isStop := false
                   price := round_to_tick (fill_price * (1 + tp_pct / 100))
                   ocaGroup := if has_stop_loss then some oca_group else none }
        | none => none
      else none
    sl_order.toList ++ tp_order.toList
  else []

/-- The first-minimum scan of
`min(range(len(strikes_list)), key=lambda i: abs(strikes_list[i] - current_price))`:
walk the remaining list keeping the best index `bi` and best key `bk`, replacing
them only on a strictly smaller key (Python's `min` keeps the first minimizer). -/
def closestAux (price : ℚ) : List ℚ → ℕ → ℕ → ℚ → ℕ
  | [], _, bi, _ => bi
  | x :: rest, i, bi, bk =>
      if |x - price| < bk then closestAux price rest (i + 1) i (|x - price|)
      else closestAux price rest (i + 1) bi bk

/-- `closest_idx` of get_option_chain_ibapi (0 on the empty list, where the source
would raise instead and exit through its catch-all failure path). -/
def closestIdx (strikes : List ℚ) (price : ℚ) : ℕ :=
  match strikes with
  | [] => 0
  | x :: rest => closestAux price rest 1 0 (|x - price|)

/-- The start/end index computation around `closest_idx` (here `c`), with `n` the
number of strikes: `start_idx = max(0, c - 6)`, `end_idx = min(n, c + 6)`, then the
window is widened to 12 when it was clamped at either edge.  Natural subtraction
plays the role of `max(0, ·)`. -/
def windowBounds (n c : ℕ) : ℕ × ℕ :=
  if min n (c + 6) - (c - 6) < 12 then
    if c - 6 = 0 then (c - 6, min n 12)
    else if min n (c + 6) = n then (n - 12, n)
    else (c - 6, min n (c + 6))
  else (c - 6, min n (c + 6))

/-- `strikes_list[start_idx:end_idx]` for the adjusted bounds: the selected strike
window in ascending order, before the final descending sort. -/
def selectWindow (strikes : List ℚ) (price : ℚ) : List ℚ :=
  let p := windowBounds strikes.length (closestIdx strikes price)
  (strikes.drop p.1).take (p.2 - p.1)

/-- `sorted(l, reverse=True)`: a stable descending sort; on rationals any stable
sort yields the same list, modelled by insertion sort on `≥`. -/
def sortDescend (l : List ℚ) : List ℚ :=
  l.insertionSort (fun a b => a ≥ b)

/-- `selected_strikes` exactly as handed to the subscription and row loops. -/
def selected_strikes (strikes : List ℚ) (price : ℚ) : List ℚ :=
  sortDescend (selectWindow strikes price)

/-- The option chain returned on success: one row per selected strike, request ids
from 2000 pairwise. -/
def option_chain_rows (all_strikes : List ℚ) (current_price : ℚ)
    (optionData : ℕ → TickBucket) : List StrikeRow :=
  buildRows optionData (selected_strikes all_strikes current_price) 2000

/- Concrete instances used by the closed theorems below. -/

/-- A stock bucket whose only received field is a last trade at price 0. -/
def bucketLastZero : TickBucket :=
  { emptyBucket with last := some (PyFloat.val 0) }

/-- A stock bucket with a zero last trade and a bid of 5. -/
def bucketLastZeroBidFive : TickBucket :=
  { emptyBucket with last := some (PyFloat.val 0), bid := some (PyFloat.val 5) }

/-- A single reported execution of 1 share at price 0. -/
def fillsZeroPx : List Fill := [⟨1, 0⟩]

/-- A single reported execution of 2 shares at price 3. -/
def fillsTwoAtThree : List Fill := [⟨2, 3⟩]

/-- A concrete OCA group name as place_order would generate. -/
def ocaG : String := "Bracket_1700000000000"

/-- Expiration strings and a date used in the expiry-selection instances. -/
def expiryA : String := "20240101"

def expiryB : String := "20260101"

def todayStr : String := "20251001"

/-- The strike list of the specification's worked example. -/
def strikesSpec : List ℚ :=
  [90, 95, 100, 105, 110, 115, 120, 125, 130, 135, 140, 145, 150]

/-- The spot price of the specification's worked example. -/
def spotSpec : ℚ := 102

/- Helper lemmas about Python truthiness of optional float fields. -/

theorem truthy_eq_false_iff (v : PyFloat) : v.truthy = false ↔ v = PyFloat.val 0 := by
  cases v with
  | nan => simp [PyFloat.truthy]
  | val q => simp [PyFloat.truthy]

theorem not_falsyField_elim (x : Option PyFloat) (h : ¬ falsyField x) :
    ∃ v, x = some v ∧ v.truthy = true := by
  rcases x with _ | v
  · exact absurd (Or.inl rfl) h
  · refine ⟨v, rfl, ?_⟩
    cases hb : v.truthy
    · exact absurd (Or.inr (by rw [(truthy_eq_false_iff v).mp hb])) h
    · rfl

theorem falsyField_pyOr (x y : Option PyFloat) (h : falsyField x) :
    pyOrFloat x y = y := by
  rcases h with rfl | rfl
  · rfl
  · simp [pyOrFloat, PyFloat.truthy]

theorem truthy_pyOr (x y : Option PyFloat) (v : PyFloat)
    (hx : x = some v) (hv : v.truthy = true) : pyOrFloat x y = some v := by
  rw [hx]
  simp [pyOrFloat, hv]

theorem resolve_of_truthy (b : TickBucket) (v : PyFloat)
    (h : current_price_of b = some v) (hv : v.truthy = true) :
    resolve_current_price b = some v := by
  unfold resolve_current_price
  rw [h]
  simp [hv]

theorem resolve_of_falsy (b : TickBucket) (h : falsyField (current_price_of b)) :
    resolve_current_price b = none := by
  unfold resolve_current_price
  rcases h with h | h
  · rw [h]
  · rw [h]
    simp [PyFloat.truthy]

/-- C3 (corrected): the price pick `last or bid or ask` of get_option_chain_ibapi
follows Python truthiness, not presence: a received field holding the float 0.0 is
skipped exactly like a missing one.  The no-price failure occurs iff each of last,
bid, ask is missing or zero; otherwise the first nonzero received field (in the
order last, bid, ask) is returned. -/
theorem C3_price_preference (b : TickBucket) :
    (resolve_current_price b = none
      ↔ (falsyField b.last ∧ falsyField b.bid ∧ falsyField b.ask))
    ∧ (¬ falsyField b.last → resolve_current_price b = b.last)
    ∧ (falsyField b.last → ¬ falsyField b.bid → resolve_current_price b = b.bid)
    ∧ (falsyField b.last → falsyField b.bid → ¬ falsyField b.ask →
        resolve_current_price b = b.ask) := by
  have hlast : ¬ falsyField b.last → resolve_current_price b = b.last := by
    intro h
    obtain ⟨v, hx, hv⟩ := not_falsyField_elim b.last h
    rw [hx]
    refine resolve_of_truthy b v ?_ hv
    unfold current_price_of
    exact truthy_pyOr _ _ v hx hv
  have hbid : falsyField b.last → ¬ falsyField b.bid →
      resolve_current_price b = b.bid := by
    intro h1 h2
    obtain ⟨v, hx, hv⟩ := not_falsyField_elim b.bid h2
    rw [hx]
    refine resolve_of_truthy b v ?_ hv
    unfold current_price_of
    rw [falsyField_pyOr b.last _ h1]
    exact truthy_pyOr _ _ v hx hv
  have hask : falsyField b.last → falsyField b.bid → ¬ falsyField b.ask →
      resolve_current_price b = b.ask := by
    intro h1 h2 h3
    obtain ⟨v, hx, hv⟩ := not_falsyField_elim b.ask h3
    rw [hx]
    refine resolve_of_truthy b v ?_ hv
    unfold current_price_of
    rw [falsyField_pyOr b.last _ h1, falsyField_pyOr b.bid _ h2]
    exact hx
  refine ⟨⟨?_, ?_⟩, hlast, hbid, hask⟩
  · intro hnone
    by_cases h1 : falsyField b.last
    · by_cases h2 : falsyField b.bid
      · by_cases h3 : falsyField b.ask
        · exact ⟨h1, h2, h3⟩
        · obtain ⟨v, hx, _⟩ := not_falsyField_elim b.ask h3
          rw [hask h1 h2 h3, hx] at hnone
          cases hnone
      · obtain ⟨v, hx, _⟩ := not_falsyField_elim b.bid h2
        rw [hbid h1 h2, hx] at hnone
        cases hnone
    · obtain ⟨v, hx, _⟩ := not_falsyField_elim b.last h1
      rw [hlast h1, hx] at hnone
      cases hnone
  · rintro ⟨h1, h2, h3⟩
    refine resolve_of_falsy b ?_
    unfold current_price_of
    rw [falsyField_pyOr b.last _ h1, falsyField_pyOr b.bid _ h2]
    exact h3

/-- C3 counterexample: a stock bucket whose last trade was received with the
legitimate traded value 0 and with no bid or ask still makes the resolution fail,
although a price field is present — refuting "fails exactly when none of the three
is present". -/
theorem C3_counterexample :
    resolve_current_price bucketLastZero = none ∧ bucketLastZero.last ≠ none := by
  constructor
  · rfl
  · simp [bucketLastZero, emptyBucket]

/-- C3 witness: with a zero last trade and a bid of 5, the resolution returns the
bid, not the (present) last price. -/
theorem C3_witness : resolve_current_price bucketLastZeroBidFive = some (PyFloat.val 5) := by
  have h := (C3_price_preference bucketLastZeroBidFive).2.2.1
    (by simp [bucketLastZeroBidFive, emptyBucket, falsyField])
    (by simp [bucketLastZeroBidFive, emptyBucket, falsyField])
  rw [h]
  rfl

/-- C2 (corrected): the mid price of the chain reduction is
`round((bid + ask) / 2, 2)` when both safe_get values are nonzero, and 0 when
either side is missing, NaN, or zero.  (The guard in the source is Python
truthiness, i.e. nonzero — not positivity: see the counterexample.) -/
theorem C2_mid_price (bid ask : Option PyFloat) :
    ((bid = none ∨ bid = some PyFloat.nan ∨ bid = some (PyFloat.val 0)
        ∨ ask = none ∨ ask = some PyFloat.nan ∨ ask = some (PyFloat.val 0)) →
      midPrice bid ask = 0)
    ∧ ∀ b a : ℚ, bid = some (PyFloat.val b) → ask = some (PyFloat.val a) →
        b ≠ 0 → a ≠ 0 → midPrice bid ask = pyRound2 ((b + a) / 2) := by
  constructor
  · rintro (rfl | rfl | rfl | rfl | rfl | rfl) <;>
      simp [midPrice, safe_get]
  · rintro b a rfl rfl hb ha
    simp [midPrice, safe_get, hb, ha]

/-- C2 counterexample: a bid of −1 (the venue's no-quote sentinel is a negative
price) with an ask of 2 is truthy on both sides, so the source computes
`round((−1 + 2) / 2, 2) = 0.5` — not the 0 the claim requires for a non-positive
bid. -/
theorem C2_counterexample :
    midPrice (some (PyFloat.val (-1))) (some (PyFloat.val 2)) = 1/2
      ∧ (1 : ℚ)/2 ≠ 0 := by
  constructor
  · have h : ((-1 : ℚ) + 2) / 2 * 100 = 50 := by norm_num
    simp only [midPrice, safe_get]
    rw [if_pos (by norm_num)]
    unfold pyRound2 roundHalfEven
    rw [h]
    norm_num
  · norm_num

/-- C2 witness: bid 1.20 and ask 1.30 give mid 1.25. -/
theorem C2_witness :
    midPrice (some (PyFloat.val (6/5))) (some (PyFloat.val (13/10))) = 5/4 := by
  have h := (C2_mid_price (some (PyFloat.val (6/5))) (some (PyFloat.val (13/10)))).2
    (6/5) (13/10) rfl rfl (by norm_num) (by norm_num)
  rw [h]
  have h2 : ((6 : ℚ)/5 + 13/10) / 2 * 100 = 125 := by norm_num
  unfold pyRound2 roundHalfEven
  rw [h2]
  norm_num

/- Rewrite helpers for the fill-price computation of place_order. -/

theorem final_fill_price_of_none (fills : List Fill) (avg : ℚ)
    (h : fills_price fills = none) : final_fill_price fills avg = avg := by
  unfold final_fill_price
  rw [h]

theorem final_fill_price_of_some (fills : List Fill) (avg p : ℚ)
    (h : fills_price fills = some p) :
    final_fill_price fills avg = if p = 0 then avg else p := by
  unfold final_fill_price
  rw [h]

/-- C4 (corrected): the realized fill price is the quantity-weighted average of the
reported executions only when the fills list is nonempty, the total quantity is
positive and that average is nonzero; in every other case — including reported
fills whose weighted average is 0 — the price falls back to the protocol's
avgFillPrice field.  The operation fails with the invalid-fill-price result iff
the price so selected is non-positive. -/
theorem C4_fill_price (fills : List Fill) (avg : ℚ) :
    (fills ≠ [] → 0 < fills_total_qty fills →
        fills_total_value fills / fills_total_qty fills ≠ 0 →
        final_fill_price fills avg = fills_total_value fills / fills_total_qty fills)
    ∧ ((fills = [] ∨ ¬ 0 < fills_total_qty fills
          ∨ fills_total_value fills / fills_total_qty fills = 0) →
        final_fill_price fills avg = avg)
    ∧ (validated_fill_price fills avg = none ↔ final_fill_price fills avg ≤ 0)
    ∧ ∀ p, validated_fill_price fills avg = some p →
        0 < p ∧ p = final_fill_price fills avg := by
  refine ⟨?_, ?_, ?_, ?_⟩
  · intro h1 h2 h3
    have hp : fills_price fills
        = some (fills_total_value fills / fills_total_qty fills) := by
      unfold fills_price
      rw [if_neg h1, if_pos h2]
    rw [final_fill_price_of_some fills avg _ hp, if_neg h3]
  · rintro (h | h | h)
    · refine final_fill_price_of_none fills avg ?_
      unfold fills_price
      rw [if_pos h]
    · by_cases h1 : fills = []
      · refine final_fill_price_of_none fills avg ?_
        unfold fills_price
        rw [if_pos h1]
      · refine final_fill_price_of_none fills avg ?_
        unfold fills_price
        rw [if_neg h1, if_neg h]
    · by_cases h1 : fills = []
      · refine final_fill_price_of_none fills avg ?_
        unfold fills_price
        rw [if_pos h1]
      · by_cases h2 : 0 < fills_total_qty fills
        · have hp : fills_price fills
              = some (fills_total_value fills / fills_total_qty fills) := by
            unfold fills_price
            rw [if_neg h1, if_pos h2]
          rw [final_fill_price_of_some fills avg _ hp, if_pos h]
        · refine final_fill_price_of_none fills avg ?_
          unfold fills_price
          rw [if_neg h1, if_neg h2]
  · unfold validated_fill_price
    split_ifs with h
    · simp [h]
    · simp [h]
  · intro p
    unfold validated_fill_price
    split_ifs with h
    · intro hc
      cases hc
    · intro hc
      have hp : final_fill_price fills avg = p := by
        injection hc
      exact ⟨hp ▸ lt_of_not_le h, hp.symm⟩

/-- C4 counterexample: a single reported execution of 1 share at price 0 makes the
weighted average 0, yet place_order reports the fill at avgFillPrice 5 and
succeeds — refuting "the realized fill price equals the quantity-weighted average
whenever at least one execution is reported". -/
theorem C4_counterexample :
    validated_fill_price fillsZeroPx 5 = some 5
      ∧ fills_total_value fillsZeroPx / fills_total_qty fillsZeroPx = 0
      ∧ (5 : ℚ) ≠ 0 := by
  refine ⟨?_, by norm_num [fills_total_value, fills_total_qty, fillsZeroPx], by norm_num⟩
  have hp : fills_price fillsZeroPx = some 0 := by
    unfold fills_price
    rw [if_neg (by simp [fillsZeroPx]),
      if_pos (by norm_num [fills_total_qty, fillsZeroPx])]
    norm_num [fills_total_value, fillsZeroPx]
  unfold validated_fill_price
  rw [final_fill_price_of_some _ _ _ hp, if_pos rfl, if_neg (by norm_num)]

/-- C4 witness: a single execution of 2 shares at price 3 yields a weighted-average
fill price of 3, whatever the protocol's average-fill field says. -/
theorem C4_witness : final_fill_price fillsTwoAtThree 7 = 3 := by
  have h := (C4_fill_price fillsTwoAtThree 7).1
    (by simp [fillsTwoAtThree])
    (by norm_num [fills_total_qty, fillsTwoAtThree])
    (by norm_num [fills_total_qty, fills_total_value, fillsTwoAtThree])
  rw [h]
  norm_num [fills_total_qty, fills_total_value, fillsTwoAtThree]

/-- C5 (corrected): a submitted bracket child carries the OCA group iff both legs
were requested (neither percentage is the sentinel, empty, or None) — regardless
of whether the other leg survives parsing.  In particular the claim's concrete
case holds: stop-loss sentinel with take-profit 10 submits exactly one child and
it carries no OCA group. -/
theorem C5_oca_grouping (fill_price : ℚ) (sl tp : PctInput) (g : String) :
    (∀ c ∈ bracket_children fill_price sl tp g,
        c.ocaGroup = if hasLegB sl && hasLegB tp then some g else none)
    ∧ (bracket_children fill_price PctInput.dashes (PctInput.value 10) g).length = 1
    ∧ ∀ c ∈ bracket_children fill_price PctInput.dashes (PctInput.value 10) g,
        c.ocaGroup = none := by
  refine ⟨?_, ?_, ?_⟩
  · intro c hc
    cases sl <;> cases tp <;> simp_all [bracket_children, hasLegB, parse_pct]
    rcases hc with rfl | rfl <;> simp
  · rfl
  · intro c hc
    simp_all [bracket_children, hasLegB, parse_pct]

/-- C5 counterexample: a malformed stop-loss percentage with take-profit 10 drops
the stop leg, so only one child exists — yet that child is tagged with the OCA
group, refuting "marked one-cancels-all iff both legs are actually present". -/
theorem C5_counterexample :
    bracket_children 10 PctInput.malformed (PctInput.value 10) ocaG
      = [{ isStop := false, price := 11, ocaGroup := some ocaG }] := by
  have h : round_to_tick (10 * (1 + (10 : ℚ) / 100)) = 11 := by
    unfold round_to_tick
    rw [if_neg (by norm_num)]
    have h1 : (10 : ℚ) * (1 + 10/100) / (10/100) = 110 := by norm_num
    rw [h1]
    have h2 : roundHalfEven 110 = 110 := by
      unfold roundHalfEven
      norm_num
    rw [h2]
    norm_num
  simp [bracket_children, hasLegB, parse_pct, h]

/-- C5 witness: with both legs requested (stop 5, take-profit 10) the take-profit
child is a member of the submission list and carries the shared OCA group. -/
theorem C5_witness :
    (bracket_children 2 PctInput.dashes (PctInput.value 10) ocaG).length = 1
      ∧ ({ isStop := false, price := round_to_tick (2 * (1 + (10 : ℚ) / 100)),
            ocaGroup := some ocaG } : ChildOrder).ocaGroup
          = if hasLegB (PctInput.value 5) && hasLegB (PctInput.value 10)
              then some ocaG else none := by
  refine ⟨(C5_oca_grouping 2 PctInput.dashes (PctInput.value 10) ocaG).2.1, ?_⟩
  exact (C5_oca_grouping 2 (PctInput.value 5) (PctInput.value 10) ocaG).1 _
    (by simp [bracket_children, hasLegB, parse_pct])

/-- C7 (corrected): each requested leg's raw price is `fill × (1 − pct/100)` for a
stop and `fill × (1 + pct/100)` for a take-profit, snapped by round_to_tick
(tick 0.05 under 3.00, else 0.10).  Fill 2.97 with pct 5 gives a stop of exactly
2.80, and fill 10.00 with pct 5 gives a *stop* of exactly 9.50 — the take-profit
at those values is 10.50 (see the counterexample). -/
theorem C7_leg_prices (fill_price : ℚ) (sl tp : PctInput) (g : String) :
    (∀ c ∈ bracket_children fill_price sl tp g,
        (c.isStop = true → ∃ q, sl = PctInput.value q ∧
            c.price = round_to_tick (fill_price * (1 - q / 100)))
        ∧ (c.isStop = false → ∃ q, tp = PctInput.value q ∧
            c.price = round_to_tick (fill_price * (1 + q / 100))))
    ∧ round_to_tick ((297/100) * (1 - (5 : ℚ)/100)) = 14/5
    ∧ round_to_tick (10 * (1 - (5 : ℚ)/100)) = 19/2 := by
  refine ⟨?_, ?_, ?_⟩
  · intro c hc
    cases sl <;> cases tp <;> simp_all [bracket_children, hasLegB, parse_pct]
    rcases hc with rfl | rfl <;> simp
  · unfold round_to_tick
    rw [if_pos (by norm_num)]
    have h1 : (297 : ℚ)/100 * (1 - 5/100) / (5/100) = 5643/100 := by norm_num
    rw [h1]
    have h2 : roundHalfEven (5643/100) = 56 := by
      unfold roundHalfEven
      have hf : ⌊(5643 : ℚ)/100⌋ = 56 := by norm_num
      rw [hf, if_pos (by norm_num)]
    rw [h2]
    norm_num
  · unfold round_to_tick
    rw [if_neg (by norm_num)]
    have h1 : (10 : ℚ) * (1 - 5/100) / (10/100) = 95 := by norm_num
    rw [h1]
    have h2 : roundHalfEven 95 = 95 := by
      unfold roundHalfEven
      norm_num
    rw [h2]
    norm_num

/-- C7 counterexample: the take-profit leg for fill 10.00 and pct 5 is submitted at
10.50 (= 10 × 1.05 on the 0.10 grid), not at the claimed 9.50. -/
theorem C7_counterexample :
    bracket_children 10 PctInput.dashes (PctInput.value 5) ocaG
      = [{ isStop := false, price := 21/2, ocaGroup := none }]
      ∧ (21 : ℚ)/2 ≠ 19/2 := by
  constructor
  · have h : round_to_tick (10 * (1 + (5 : ℚ) / 100)) = 21/2 := by
      unfold round_to_tick
      rw [if_neg (by norm_num)]
      have h1 : (10 : ℚ) * (1 + 5/100) / (10/100) = 105 := by norm_num
      rw [h1]
      have h2 : roundHalfEven 105 = 105 := by
        unfold roundHalfEven
        norm_num
      rw [h2]
      norm_num
    simp [bracket_children, hasLegB, parse_pct, h]
  · norm_num

/-- C7 witness: the stop child for fill 2.97 and pct 5 is submitted at the price
round_to_tick(2.97 × 0.95), i.e. 2.80. -/
theorem C7_witness :
    ({ isStop := true, price := round_to_tick ((297/100) * (1 - (5 : ℚ) / 100)),
        ocaGroup := none } : ChildOrder).price
      = round_to_tick ((297/100) * (1 - (5 : ℚ)/100))
      ∧ round_to_tick ((297/100) * (1 - (5 : ℚ)/100)) = 14/5 := by
  have hmem := (C7_leg_prices (297/100) (PctInput.value 5) PctInput.dashes ocaG).1
    { isStop := true, price := round_to_tick ((297/100) * (1 - (5 : ℚ) / 100)),
      ocaGroup := none }
    (by simp [bracket_children, hasLegB, parse_pct])
  obtain ⟨q, hq, hp⟩ := hmem.1 rfl
  have hq5 : q = 5 := by
    injection hq with h
    exact h.symm
  exact ⟨hq5 ▸ hp, (C7_leg_prices (297/100) (PctInput.value 5) PctInput.dashes ocaG).2.1⟩

/- The firing invariant of the pending-request set. -/

theorem completeOne_fireCount_inv (s : PendingState) (reqId : ℕ)
    (h : s.fireCount = if s.pending = ∅ then 1 else 0) :
    (completeOne s reqId).fireCount
      = if (completeOne s reqId).pending = ∅ then 1 else 0 := by
  unfold completeOne
  by_cases hm : reqId ∈ s.pending
  · rw [if_pos hm]
    have hne : s.pending ≠ ∅ := Finset.ne_empty_of_mem hm
    rw [if_neg hne] at h
    by_cases he : s.pending.erase reqId = ∅
    · simp [he, h]
    · simp [he, h]
  · rw [if_neg hm]
    exact h

theorem runCompletions_fireCount_inv (tr : List ℕ) (s : PendingState)
    (h : s.fireCount = if s.pending = ∅ then 1 else 0) :
    (runCompletions s tr).fireCount
      = if (runCompletions s tr).pending = ∅ then 1 else 0 := by
  induction tr generalizing s with
  | nil => exact h
  | cons a t ih => exact ih (completeOne s a) (completeOne_fireCount_inv s a h)

/-- C6 (confirmed): starting from a nonempty pending set with an unfired signal,
any sequence of end-callbacks fires the signal at most once, and it has fired
exactly once iff the set has become empty; removal is idempotent and a completion
for an id not in the set is a no-op. -/
theorem C6_completion_fires_once (init : Finset ℕ) (tr : List ℕ) (hne : init ≠ ∅) :
    ((runCompletions ⟨init, 0⟩ tr).fireCount ≤ 1
      ∧ ((runCompletions ⟨init, 0⟩ tr).fireCount = 1
          ↔ (runCompletions ⟨init, 0⟩ tr).pending = ∅))
    ∧ (∀ s : PendingState, ∀ reqId : ℕ,
        completeOne (completeOne s reqId) reqId = completeOne s reqId)
    ∧ ∀ s : PendingState, ∀ reqId : ℕ, reqId ∉ s.pending → completeOne s reqId = s := by
  have hinv : (runCompletions ⟨init, 0⟩ tr).fireCount
      = if (runCompletions ⟨init, 0⟩ tr).pending = ∅ then 1 else 0 :=
    runCompletions_fireCount_inv tr ⟨init, 0⟩ (by simp [hne])
  refine ⟨⟨?_, ?_⟩, ?_, ?_⟩
  · rw [hinv]
    split_ifs <;> omega
  · rw [hinv]
    split_ifs with h <;> simp [h]
  · intro s reqId
    by_cases hm : reqId ∈ s.pending
    · have hnot : reqId ∉ s.pending.erase reqId := Finset.not_mem_erase _ _
      unfold completeOne
      rw [if_pos hm]
      simp [hnot]
    · unfold completeOne
      rw [if_neg hm, if_neg hm]
  · intro s reqId hm
    unfold completeOne
    rw [if_neg hm]

/-- C6 witness: from the pending set {1, 2}, the callback sequence 1, 1, 2 (a
duplicate completion for id 1) fires the signal exactly once. -/
theorem C6_witness :
    ((runCompletions ⟨{1, 2}, 0⟩ [1, 1, 2]).fireCount ≤ 1
      ∧ ((runCompletions ⟨{1, 2}, 0⟩ [1, 1, 2]).fireCount = 1
          ↔ (runCompletions ⟨{1, 2}, 0⟩ [1, 1, 2]).pending = ∅)) :=
  (C6_completion_fires_once {1, 2} [1, 1, 2] (by decide)).1

/- Preservation of NaN-freedom of the delta and theta fields. -/

theorem applyEvent_nan_free (b : TickBucket) (ev : TickEvent)
    (hd : b.delta ≠ some PyFloat.nan) (ht : b.theta ≠ some PyFloat.nan) :
    (applyEvent b ev).delta ≠ some PyFloat.nan
      ∧ (applyEvent b ev).theta ≠ some PyFloat.nan := by
  cases ev with
  | price t p =>
    simp only [applyEvent, tickPrice]
    split_ifs <;> exact ⟨hd, ht⟩
  | size t s =>
    simp only [applyEvent, tickSize]
    split_ifs <;> exact ⟨hd, ht⟩
  | generic t v =>
    simp only [applyEvent, tickGeneric]
    split_ifs <;> exact ⟨hd, ht⟩
  | optComp ivv d th =>
    have hdn : ∀ v : PyFloat, v.truthy = true ∧ v.isnan = false → ¬ v = PyFloat.nan := by
      intro v hv hc
      rw [hc] at hv
      simp [PyFloat.isnan] at hv
    simp only [applyEvent, tickOptionComputation]
    split_ifs <;> simp_all

/-- C9 (corrected): only tickOptionComputation filters invalid values at recording
time — delta and theta are stored only when non-NaN (so those fields never hold
NaN after any callback sequence), and implied volatility only when positive.  The
price, size and generic callbacks store raw values unfiltered, so bid/ask/last
(and iv via the generic tick) can hold NaN; such stored values are mapped to the
default 0 by safe_get at reduction time instead. -/
theorem C9_tick_filtering (evs : List TickEvent) (b : TickBucket)
    (hd : b.delta ≠ some PyFloat.nan) (ht : b.theta ≠ some PyFloat.nan) :
    ((runEvents b evs).delta ≠ some PyFloat.nan
      ∧ (runEvents b evs).theta ≠ some PyFloat.nan)
    ∧ safe_get (some PyFloat.nan) = 0 ∧ safe_get none = 0 := by
  refine ⟨?_, rfl, rfl⟩
  induction evs generalizing b with
  | nil => exact ⟨hd, ht⟩
  | cons e t ih =>
    have h := applyEvent_nan_free b e hd ht
    exact ih (applyEvent b e) h.1 h.2

/-- C9 counterexample: a bid tick carrying NaN is stored as received — after the
callback the bucket's bid field holds NaN, refuting "recordTick drops NaN values,
no TickBucket field ever holds a NaN value". -/
theorem C9_counterexample :
    (runEvents emptyBucket [TickEvent.price 1 PyFloat.nan]).bid
      = some PyFloat.nan := rfl

/-- C9 witness: an all-NaN option-computation tick followed by a price tick leaves
the delta and theta fields NaN-free. -/
theorem C9_witness :
    ((runEvents emptyBucket
        [TickEvent.optComp PyFloat.nan PyFloat.nan PyFloat.nan,
         TickEvent.price 1 (PyFloat.val 2)]).delta ≠ some PyFloat.nan
      ∧ (runEvents emptyBucket
        [TickEvent.optComp PyFloat.nan PyFloat.nan PyFloat.nan,
         TickEvent.price 1 (PyFloat.val 2)]).theta ≠ some PyFloat.nan)
    ∧ safe_get (some PyFloat.nan) = 0 ∧ safe_get none = 0 :=
  C9_tick_filtering
    [TickEvent.optComp PyFloat.nan PyFloat.nan PyFloat.nan,
     TickEvent.price 1 (PyFloat.val 2)]
    emptyBucket (by simp [emptyBucket]) (by simp [emptyBucket])

/- The first match of the expiration scan is minimal among matches in a sorted
list. -/

theorem find_min_of_sorted (today : String) (l : List String) (hs : l.Sorted strLE)
    (e : String) (hf : l.find? (fun x => decide (strLE today x)) = some e) :
    ∀ x ∈ l, strLE today x → strLE e x := by
  induction l with
  | nil => simp at hf
  | cons a t ih =>
    by_cases hp : strLE today a
    · rw [List.find?_cons_of_pos _ (by simpa using hp)] at hf
      have hae : a = e := by injection hf
      subst hae
      intro x hx hxt
      rcases List.mem_cons.mp hx with rfl | hx'
      · show x.toList ≤ x.toList
        exact le_refl _
      · exact List.rel_of_sorted_cons hs x hx'
    · rw [List.find?_cons_of_neg _ (by simpa using hp)] at hf
      intro x hx hxt
      rcases List.mem_cons.mp hx with rfl | hx'
      · exact absurd hxt hp
      · exact ih (List.sorted_cons.mp hs).2 hf x hx' hxt

/-- C8 (confirmed): given the ascending expiration list, the scan returns the first
expiration lexicographically ≥ today (equivalently, in a sorted list, the least
such); when every expiration is lexicographically before today it falls back to
the earliest available expiration.  (`strLT "" today` records that today's
YYYYMMDD string is nonempty, so the Python truthiness guard on the found string
cannot fire.) -/
theorem C8_expiry_selection (exps : List String) (today : String)
    (hs : exps.Sorted strLE) (hne : exps ≠ []) (ht : strLT "" today) :
    ∃ e, nearest_expiry exps today = some e ∧ e ∈ exps ∧
      ((strLE today e ∧ ∀ x ∈ exps, strLE today x → strLE e x)
        ∨ ((∀ x ∈ exps, ¬ strLE today x) ∧ ∀ x ∈ exps, strLE e x)) := by
  rcases hfind : exps.find? (fun x => decide (strLE today x)) with _ | e
  · have hall : ∀ x ∈ exps, ¬ strLE today x := by
      intro x hx
      have h := List.find?_eq_none.mp hfind x hx
      simpa using h
    match exps, hne with
    | a :: t, _ =>
      refine ⟨a, ?_, List.mem_cons_self a t, Or.inr ⟨hall, ?_⟩⟩
      · simp [nearest_expiry, hfind]
      · intro x hx
        rcases List.mem_cons.mp hx with rfl | hx'
        · show x.toList ≤ x.toList
          exact le_refl _
        · exact List.rel_of_sorted_cons hs x hx'
  · have hpe : strLE today e := by simpa using List.find?_some hfind
    have hmem := List.mem_of_find?_eq_some hfind
    have hene : e ≠ "" := by
      intro hc
      subst hc
      have h1 : ("" : String).toList < today.toList := ht
      have h2 : today.toList ≤ ("" : String).toList := hpe
      exact absurd (lt_of_lt_of_le h1 h2) (lt_irrefl _)
    refine ⟨e, ?_, hmem, Or.inl ⟨hpe, find_min_of_sorted today exps hs e hfind⟩⟩
    simp [nearest_expiry, hfind, hene]

/-- C8 witness: with expirations 20240101 and 20260101 and today 20251001, the
selected expiration satisfies the first-match characterization. -/
theorem C8_witness :
    ∃ e, nearest_expiry [expiryA, expiryB] todayStr = some e
      ∧ e ∈ [expiryA, expiryB]
      ∧ ((strLE todayStr e
            ∧ ∀ x ∈ [expiryA, expiryB], strLE todayStr x → strLE e x)
        ∨ ((∀ x ∈ [expiryA, expiryB], ¬ strLE todayStr x)
            ∧ ∀ x ∈ [expiryA, expiryB], strLE e x)) :=
  C8_expiry_selection [expiryA, expiryB] todayStr
    (by
      refine List.sorted_cons.mpr ⟨?_, ?_⟩
      · intro b hb
        rcases List.mem_cons.mp hb with rfl | hb'
        · show expiryA.toList ≤ expiryB.toList
          decide
        · simp at hb'
      · simp [List.Sorted])
    (by simp)
    (by
      show ("" : String).toList < todayStr.toList
      decide)

/- Characterization of Python's first-minimum scan used for `closest_idx`. -/

theorem closestAux_spec (price : ℚ) (l : List ℚ) :
    ∀ (i bi : ℕ) (bk : ℚ),
      (closestAux price l i bi bk = bi
          ∧ ∀ j, j < l.length → bk ≤ |l.getD j 0 - price|)
      ∨ (∃ j, j < l.length ∧ closestAux price l i bi bk = i + j
          ∧ |l.getD j 0 - price| < bk
          ∧ (∀ m, m < l.length → |l.getD j 0 - price| ≤ |l.getD m 0 - price|)
          ∧ ∀ m, m < j → |l.getD j 0 - price| < |l.getD m 0 - price|) := by
  induction l with
  | nil =>
    intro i bi bk
    left
    refine ⟨rfl, ?_⟩
    intro j hj
    simp at hj
  | cons x t ih =>
    intro i bi bk
    by_cases hx : |x - price| < bk
    · have hstep : closestAux price (x :: t) i bi bk
          = closestAux price t (i + 1) i (|x - price|) := by
        rw [closestAux, if_pos hx]
      rcases ih (i + 1) i (|x - price|) with ⟨heq, hall⟩ |
        ⟨j, hj, heq, hlt, hmin, hfirst⟩
      · right
        refine ⟨0, by simp, ?_, ?_, ?_, ?_⟩
        · rw [hstep, heq]
          omega
        · simpa using hx
        · intro m hm
          cases m with
          | zero => simp
          | succ m' =>
            simp only [List.getD_cons_succ, List.getD_cons_zero]
            exact hall m' (by simpa using hm)
        · intro m hm
          exact absurd hm (Nat.not_lt_zero m)
      · right
        refine ⟨j + 1, by simpa using hj, ?_, ?_, ?_, ?_⟩
        · rw [hstep, heq]
          omega
        · simp only [List.getD_cons_succ]
          exact lt_trans hlt hx
        · intro m hm
          cases m with
          | zero =>
            simp only [List.getD_cons_succ, List.getD_cons_zero]
            exact le_of_lt hlt
          | succ m' =>
            simp only [List.getD_cons_succ]
            exact hmin m' (by simpa using hm)
        · intro m hm
          cases m with
          | zero =>
            simp only [List.getD_cons_succ, List.getD_cons_zero]
            exact hlt
          | succ m' =>
            simp only [List.getD_cons_succ]
            exact hfirst m' (by omega)
    · have hstep : closestAux price (x :: t) i bi bk
          = closestAux price t (i + 1) bi bk := by
        rw [closestAux, if_neg hx]
      rcases ih (i + 1) bi bk with ⟨heq, hall⟩ | ⟨j, hj, heq, hlt, hmin, hfirst⟩
      · left
        refine ⟨by rw [hstep, heq], ?_⟩
        intro m hm
        cases m with
        | zero =>
          simp only [List.getD_cons_zero]
          exact not_lt.mp hx
        | succ m' =>
          simp only [List.getD_cons_succ]
          exact hall m' (by simpa using hm)
      · right
        refine ⟨j + 1, by simpa using hj, ?_, ?_, ?_, ?_⟩
        · rw [hstep, heq]
          omega
        · simp only [List.getD_cons_succ]
          exact hlt
        · intro m hm
          cases m with
          | zero =>
            simp only [List.getD_cons_succ, List.getD_cons_zero]
            exact le_of_lt (lt_of_lt_of_le hlt (not_lt.mp hx))
          | succ m' =>
            simp only [List.getD_cons_succ]
            exact hmin m' (by simpa using hm)
        · intro m hm
          cases m with
          | zero =>
            simp only [List.getD_cons_succ, List.getD_cons_zero]
            exact lt_of_lt_of_le hlt (not_lt.mp hx)
          | succ m' =>
            simp only [List.getD_cons_succ]
            exact hfirst m' (by omega)

theorem closestIdx_spec (strikes : List ℚ) (price : ℚ) (h : strikes ≠ []) :
    closestIdx strikes price < strikes.length
    ∧ (∀ m, m < strikes.length →
        |strikes.getD (closestIdx strikes price) 0 - price|
          ≤ |strikes.getD m 0 - price|)
    ∧ ∀ m, m < closestIdx strikes price →
        |strikes.getD (closestIdx strikes price) 0 - price|
          < |strikes.getD m 0 - price| := by
  match strikes, h with
  | x :: t, _ =>
    have hdef : closestIdx (x :: t) price = closestAux price t 1 0 (|x - price|) := rfl
    rcases closestAux_spec price t 1 0 (|x - price|) with ⟨heq, hall⟩ |
      ⟨j, hj, heq, hlt, hmin, hfirst⟩
    · rw [hdef, heq]
      refine ⟨by simp, ?_, ?_⟩
      · intro m hm
        cases m with
        | zero => simp
        | succ m' =>
          simp only [List.getD_cons_succ, List.getD_cons_zero]
          exact hall m' (by simpa using hm)
      · intro m hm
        exact absurd hm (Nat.not_lt_zero m)
    · have h1j : 1 + j = j + 1 := by omega
      rw [hdef, heq, h1j]
      refine ⟨by simpa using hj, ?_, ?_⟩
      · intro m hm
        cases m with
        | zero =>
          simp only [List.getD_cons_succ, List.getD_cons_zero]
          exact le_of_lt hlt
        | succ m' =>
          simp only [List.getD_cons_succ]
          exact hmin m' (by simpa using hm)
      · intro m hm
        cases m with
        | zero =>
          simp only [List.getD_cons_succ, List.getD_cons_zero]
          exact hlt
        | succ m' =>
          simp only [List.getD_cons_succ]
          exact hfirst m' (by omega)

theorem windowBounds_spec (n c : ℕ) (h : c < n) :
    (windowBounds n c).1 ≤ c ∧ c < (windowBounds n c).2
      ∧ (windowBounds n c).2 ≤ n
      ∧ (windowBounds n c).2 - (windowBounds n c).1 = min 12 n := by
  unfold windowBounds
  split_ifs with h1 h2 h3 <;> dsimp only <;> omega

theorem selectWindow_eq (strikes : List ℚ) (price : ℚ) :
    selectWindow strikes price
      = (strikes.drop (windowBounds strikes.length (closestIdx strikes price)).1).take
          ((windowBounds strikes.length (closestIdx strikes price)).2
            - (windowBounds strikes.length (closestIdx strikes price)).1) := rfl

theorem selectWindow_length (strikes : List ℚ) (price : ℚ) :
    (selectWindow strikes price).length = min 12 strikes.length := by
  rcases eq_or_ne strikes [] with rfl | hne
  · rfl
  · have hc := (closestIdx_spec strikes price hne).1
    obtain ⟨hb1, hb2, hb3, hb4⟩ :=
      windowBounds_spec strikes.length (closestIdx strikes price) hc
    rw [selectWindow_eq, List.length_take, List.length_drop]
    omega

theorem selectWindow_sorted (strikes : List ℚ) (price : ℚ)
    (h : strikes.Sorted (· < ·)) : (selectWindow strikes price).Sorted (· < ·) :=
  List.Pairwise.sublist ((List.take_sublist _ _).trans (List.drop_sublist _ _)) h

theorem sortDescend_perm (l : List ℚ) : (sortDescend l).Perm l :=
  List.perm_insertionSort _ l

theorem sortDescend_sorted (l : List ℚ) :
    (sortDescend l).Sorted (fun a b => a ≥ b) :=
  List.sorted_insertionSort _ l

theorem sortDescend_strict (l : List ℚ) (h : l.Sorted (· < ·)) :
    (sortDescend l).Sorted (· > ·) := by
  have hnd : l.Nodup := h.imp (fun hab => ne_of_lt hab)
  have hnd2 : (sortDescend l).Nodup := hnd.perm (sortDescend_perm l).symm
  exact ((sortDescend_sorted l).and hnd2).imp
    (fun hab => lt_of_le_of_ne hab.1 (Ne.symm hab.2))

theorem buildRows_length (d : ℕ → TickBucket) (l : List ℚ) (r : ℕ) :
    (buildRows d l r).length = l.length := by
  induction l generalizing r with
  | nil => rfl
  | cons a t ih => simp [buildRows, ih]

theorem buildRows_map_strike (d : ℕ → TickBucket) (l : List ℚ) (r : ℕ) :
    (buildRows d l r).map (fun row => row.strike) = l := by
  induction l generalizing r with
  | nil => rfl
  | cons a t ih => simp [buildRows, mkRow, ih]

/-- C1 (confirmed): for a distinct ascending strike list the option chain has
exactly `min 12 totalStrikes` rows — 12 when at least 12 strikes exist, the total
strike count otherwise — and the row strikes are strictly descending. -/
theorem C1_chain_size_and_order (all_strikes : List ℚ) (current_price : ℚ)
    (optionData : ℕ → TickBucket) (hs : all_strikes.Sorted (· < ·)) :
    (option_chain_rows all_strikes current_price optionData).length
        = min 12 all_strikes.length
    ∧ ((option_chain_rows all_strikes current_price optionData).map
        (fun row => row.strike)).Sorted (· > ·) := by
  constructor
  · rw [option_chain_rows, buildRows_length, selected_strikes,
      (sortDescend_perm _).length_eq]
    exact selectWindow_length all_strikes current_price
  · rw [option_chain_rows, buildRows_map_strike]
    exact sortDescend_strict _ (selectWindow_sorted _ _ hs)

/-- C1 witness: the specification's 13-strike example at spot 102 yields 12 rows,
strictly descending. -/
theorem C1_witness :
    (option_chain_rows strikesSpec spotSpec (fun _ => emptyBucket)).length
        = min 12 strikesSpec.length
    ∧ ((option_chain_rows strikesSpec spotSpec (fun _ => emptyBucket)).map
        (fun row => row.strike)).Sorted (· > ·) :=
  C1_chain_size_and_order strikesSpec spotSpec (fun _ => emptyBucket) (by decide)

/-- C10 (confirmed): the pre-reversal strike window is a contiguous slice of the
ascending strike list, and it contains the strike nearest the spot price, ties
resolved to the smaller strike. -/
theorem C10_window_contains_nearest (strikes : List ℚ) (price : ℚ)
    (hs : strikes.Sorted (· < ·)) (hne : strikes ≠ []) :
    (∃ s e, selectWindow strikes price = (strikes.drop s).take (e - s))
    ∧ ∃ m ∈ selectWindow strikes price, m ∈ strikes
        ∧ (∀ x ∈ strikes, |m - price| ≤ |x - price|)
        ∧ ∀ x ∈ strikes, |x - price| = |m - price| → m ≤ x := by
  obtain ⟨hc, hmin, hfirst⟩ := closestIdx_spec strikes price hne
  obtain ⟨hb1, hb2, hb3, hb4⟩ :=
    windowBounds_spec strikes.length (closestIdx strikes price) hc
  refine ⟨⟨(windowBounds strikes.length (closestIdx strikes price)).1,
    (windowBounds strikes.length (closestIdx strikes price)).2, rfl⟩, ?_⟩
  have hcd : strikes.getD (closestIdx strikes price) 0 = strikes[closestIdx strikes price] :=
    List.getD_eq_getElem strikes 0 hc
  have hmem_win : strikes.getD (closestIdx strikes price) 0 ∈ selectWindow strikes price := by
    rw [selectWindow_eq]
    refine List.mem_iff_getElem.mpr ⟨closestIdx strikes price
      - (windowBounds strikes.length (closestIdx strikes price)).1, ?_, ?_⟩
    · rw [List.length_take, List.length_drop]
      omega
    · rw [List.getElem_take, List.getElem_drop, hcd]
      congr 1
      omega
  refine ⟨strikes.getD (closestIdx strikes price) 0, hmem_win, ?_, ?_, ?_⟩
  · rw [hcd]
    exact List.getElem_mem hc
  · intro x hx
    obtain ⟨j, hj, rfl⟩ := List.mem_iff_getElem.mp hx
    have h := hmin j hj
    rw [List.getD_eq_getElem strikes 0 hj] at h
    exact h
  · intro x hx heq
    obtain ⟨j, hj, rfl⟩ := List.mem_iff_getElem.mp hx
    by_cases hjc : j < closestIdx strikes price
    · exfalso
      have h1 := hfirst j hjc
      rw [List.getD_eq_getElem strikes 0 hj] at h1
      rw [heq] at h1
      exact lt_irrefl _ h1
    · have hcj : closestIdx strikes price ≤ j := Nat.le_of_not_lt hjc
      have hmono := hs.get_strictMono.monotone
        (show (⟨closestIdx strikes price, hc⟩ : Fin strikes.length) ≤ ⟨j, hj⟩ from
          Fin.mk_le_mk.mpr hcj)
      rw [hcd]
      simpa [List.get_eq_getElem] using hmono

/-- C10 witness: the window for the 13-strike example at spot 102 is a contiguous
slice containing the nearest strike. -/
theorem C10_witness :
    (∃ s e, selectWindow strikesSpec spotSpec = (strikesSpec.drop s).take (e - s))
    ∧ ∃ m ∈ selectWindow strikesSpec spotSpec, m ∈ strikesSpec
        ∧ (∀ x ∈ strikesSpec, |m - spotSpec| ≤ |x - spotSpec|)
        ∧ ∀ x ∈ strikesSpec, |x - spotSpec| = |m - spotSpec| → m ≤ x :=
  C10_window_contains_nearest strikesSpec spotSpec (by decide) (by decide)
